import Mathlib

/-!
# Verification of the eh_frame → native unwinder compiler

Shallow embedding of the core of `ehframe-bpf-compiler`:

* `src/src/ast.rs` — the `Register` rule model, `MachineRegister`, the
  gimli→model conversions and `UnwindTableRow::parse`;
* `src/src/gen.rs` — the code generator: `UnwindFlags` and its `u8`
  encoding, the recursive dispatch-tree builder `gen_rows`, the per-row
  leaf generator `UnwindTableRow::gen`, and the expression renderer
  `Register::gen`.

The generator emits C text; the embedding represents the emitted text by
small syntax trees (`CExpr` for expressions, `Stmt` for statements,
`DTree` for the nested if/else dispatch) whose constructors correspond
one-to-one to the string templates in `gen.rs`.  Rust panics
(`unreachable!`, `todo!`, out-of-bounds indexing, `unwrap` on `None`)
are modelled as `none`.
-/

namespace EhframeBpf

/-- A machine register among the supported ones (src/src/ast.rs, `MachineRegister`).
`Ra` is, as the source comments, "a bit of cheating: not a machine register". -/
inductive MachineRegister
  | Rip
  | Rsp
  | Rbp
  | Rbx
  | Ra
deriving DecidableEq

/-- Holds a single dwarf register value (src/src/ast.rs, `Register`).
The second constructor is `Register::Register` in the source ("value of a
machine register plus offset"); it is named `Reg` here because Lean
rejects a constructor that shadows its own type's name. -/
inductive Register
  | Undefined
  | Reg (reg : MachineRegister) (offset : Int)
  | CfaOffset (offset : Int)
  | PltExpr
  | Unimplemented
deriving DecidableEq

/-- Modelled from the spec: the predicate gen.rs calls `is_implemented`
(the spec's `is_supported`) is declared in a crate module missing from
`src/`; per the spec it is "false only for `Unsupported`"
(= `Unimplemented` in the source). -/
def Register.is_implemented : Register → Bool
  | .Unimplemented => false
  | _ => true

/-- Modelled from the spec: `is_defined` is declared in a crate module
missing from `src/`; per the spec it is "true only for the
concrete-value variants, i.e. supported and not `Undefined`". -/
def Register.is_defined : Register → Bool
  | .Undefined => false
  | .Unimplemented => false
  | _ => true

/-- The C expressions the renderer `Register::gen` can emit
(src/src/gen.rs lines 125-140); one constructor per string template:
`derefRspOffset n` is `deref(out_ctx->rsp + n)`, `ctxReg r n` is
`ctx.r + n`, and `plt` is `(((ctx.rip & 15) >= 11) ? 8 : 0) + ctx.rsp`. -/
inductive CExpr
  | derefRspOffset (offset : Int)
  | ctxReg (reg : MachineRegister) (offset : Int)
  | plt
deriving DecidableEq

/-- `Register::gen` (src/src/gen.rs lines 125-140).  The `Undefined` and
`Unimplemented` arms are `unreachable!()` panics, modelled as `none`. -/
def Register.gen : Register → Option CExpr
  | .CfaOffset offset => some (.derefRspOffset offset)
  | .Reg reg offset => some (.ctxReg reg offset)
  | .PltExpr => some .plt
  | .Undefined => none
  | .Unimplemented => none

/-- `UnwindFlags` (src/src/gen.rs lines 39-46). -/
structure UnwindFlags where
  rip : Bool := false
  rsp : Bool := false
  rbp : Bool := false
  rbx : Bool := false
  error : Bool := false
deriving DecidableEq

/-- `impl From<UnwindFlags> for u8` (src/src/gen.rs lines 48-56). -/
def UnwindFlags.toU8 (flags : UnwindFlags) : Nat :=
  (flags.rip.toNat <<< 0) ||| (flags.rsp.toNat <<< 1) ||| (flags.rbp.toNat <<< 2) |||
    (flags.rbx.toNat <<< 3) ||| (flags.error.toNat <<< 7)

/-- The C statements a row leaf can emit (src/src/gen.rs lines 86-122):
`out_ctx->rsp = e;`, `out_ctx->rbp = e;`, `out_ctx->rip = e;`,
`out_ctx->flags = v;` and `return;`. -/
inductive Stmt
  | assignRsp (e : CExpr)
  | assignRbp (e : CExpr)
  | assignRip (e : CExpr)
  | setFlags (v : Nat)
  | ret
deriving DecidableEq

/-- The row type gen.rs compiles.  Its declaration is in a crate module
missing from `src/` (the ast.rs in `src/` declares an older variant keyed
by a single `ip`); fields are modelled from the spec's `UnwindRow`
(`start_address` inclusive, `end_address` exclusive) and from the field
accesses in gen.rs (`cfa`, `rbp`, `rbx`, `ra`). -/
structure UnwindTableRow where
  start_address : Nat
  end_address : Nat
  cfa : Register
  rbp : Register
  rbx : Register
  ra : Register
deriving DecidableEq

/-- `UnwindTableRow::gen` (src/src/gen.rs lines 86-122): emits the leaf
statements for one row, in source order, and finally the flags byte and
`return;`.  Returns the statement list together with the emitted flags
byte; `none` models a panic inside `Register::gen`. -/
def UnwindTableRow.gen (row : UnwindTableRow) : Option (List Stmt × Nat) := do
  let flags0 : UnwindFlags := {}
  -- "RA might be undefined (last frame), but if it is defined and we
  -- don't implement it (eg. EXPR), it is an error."
  let flags1 := if row.ra.is_implemented then flags0 else { flags0 with error := true }
  let (s1, flags2) ←
    if row.cfa.is_implemented then do
      let e ← row.cfa.gen
      pure ([Stmt.assignRsp e], { flags1 with rsp := true })
    else
      -- "rsp is required (CFA)"
      pure (([] : List Stmt), { flags1 with error := true })
  let (s2, flags3) ←
    if row.rbp.is_defined then do
      let e ← row.rbp.gen
      pure ([Stmt.assignRbp e], { flags2 with rbp := true })
    else
      pure (([] : List Stmt), flags2)
  let (s3, flags4) ←
    if row.ra.is_defined then do
      let e ← row.ra.gen
      pure ([Stmt.assignRip e], { flags3 with rip := true })
    else
      pure (([] : List Stmt), flags3)
  pure (s1 ++ s2 ++ s3 ++ [Stmt.setFlags flags4.toU8, Stmt.ret], flags4.toU8)

example :
    UnwindTableRow.gen ⟨0, 16, .Reg .Rsp 16, .Undefined, .Undefined, .CfaOffset (-8)⟩ =
      some ([Stmt.assignRsp (.ctxReg .Rsp 16), Stmt.assignRip (.derefRspOffset (-8)),
             Stmt.setFlags 3, Stmt.ret], 3) := by
  decide

/-- The nested if/else dispatch structure emitted by `gen_rows`
(src/src/gen.rs lines 67-84): an internal node is
`if (lo <= pc && pc < hi) { left } else { right }` and a leaf is the row
whose statements `UnwindTableRow::gen` emits there. -/
inductive DTree
  | leaf (row : UnwindTableRow)
  | node (lo hi : Nat) (left right : DTree)
deriving DecidableEq

/-- `gen_rows` (src/src/gen.rs lines 67-84).  When more than one row
remains, the slice is split at `len / 2`; the guard compares `pc` against
the first row's `start_address` and the last row's `end_address` of the
left half.  A single row emits its leaf; `rows[0]` on an empty slice is
an out-of-bounds panic, modelled as `none` (`first().unwrap()` and
`last().unwrap()` likewise). -/
def gen_rows (rows : List UnwindTableRow) : Option DTree :=
  if h : rows.length > 1 then
    match (rows.take (rows.length / 2)).head?, (rows.take (rows.length / 2)).getLast?,
        gen_rows (rows.take (rows.length / 2)), gen_rows (rows.drop (rows.length / 2)) with
    | some hd, some lst, some ta, some tb =>
        some (.node hd.start_address lst.end_address ta tb)
    | _, _, _, _ => none
  else
    match rows with
    | [] => none
    | r :: _ => some (.leaf r)
termination_by rows.length
decreasing_by
· simp only [List.length_take]
  omega
· simp only [List.length_drop]
  omega

/-- Which leaf the emitted if/else structure reaches for a query address
`pc`: an internal node tests `lo ≤ pc && pc < hi` and takes the left
branch on true, the right branch on false. -/
def DTree.eval (pc : Nat) : DTree → UnwindTableRow
  | .leaf row => row
  | .node lo hi left right =>
      if lo ≤ pc ∧ pc < hi then left.eval pc else right.eval pc

/-- Nesting depth of the emitted conditional structure: a leaf has depth
0, an internal `if`/`else` adds one level. -/
def DTree.depth : DTree → Nat
  | .leaf _ => 0
  | .node _ _ left right => 1 + max left.depth right.depth

/-- The fallback epilogue `POST` (src/src/gen.rs lines 33-37): after the
dispatch code it writes `out_ctx->flags = 7; // UNWF_ERROR` and returns. -/
def postStmts : List Stmt := [Stmt.setFlags 7, Stmt.ret]

/-- `UnwindTable::gen` (src/src/gen.rs lines 58-65) emits `PRE`, then the
dispatch code for `self.rows`, then `POST`.  The crate-level `UnwindTable`
it is implemented on is declared in a module missing from `src/`; per the
spec it carries the flat, sorted row list. -/
structure UnwindTable where
  rows : List UnwindTableRow
deriving DecidableEq

/-- Dispatch part of `UnwindTable::gen`: the tree emitted between `PRE`
and `POST`. -/
def UnwindTable.gen (t : UnwindTable) : Option DTree :=
  gen_rows t.rows

/-- Modelled from the spec: the `UnwindTableBuilder` step (the crate's
`UnwindTable::parse`, missing from `src/`; only its caller `main.rs` is
present): "consume the ordered-by-entry row streams from CfiExtractor,
concatenate them into one sequence, and stable-sort by `start_address`
ascending". -/
def buildTable (entries : List (List UnwindTableRow)) : UnwindTable :=
  ⟨(entries.flatten).mergeSort fun a b => decide (a.start_address ≤ b.start_address)⟩

/-! ## Extraction side (src/src/ast.rs) -/

namespace Ast

/-- The row type declared in src/src/ast.rs (lines 81-93), keyed by a
single instruction pointer `ip`. -/
structure UnwindTableRow where
  ip : Nat
  cfa : Register
  rbp : Register
  rbx : Register
  ra : Register
deriving DecidableEq

/-- `impl From<gimli::Register> for MachineRegister`
(src/src/ast.rs lines 55-65).  A gimli register is a DWARF register
number; on x86_64, `RBX = 3`, `RBP = 6`, `RSP = 7`, `RA = 16`.  Every
other number hits the `todo!()` panic, modelled as `none`. -/
def machineRegisterOfDwarf (reg : Nat) : Option MachineRegister :=
  if reg = 7 then some .Rsp
  else if reg = 6 then some .Rbp
  else if reg = 3 then some .Rbx
  else if reg = 16 then some .Ra
  else none

/-- The shape of `gimli::CfaRule`, the external decoder's CFA rule
(only its two constructors matter to `UnwindTableRow::parse`). -/
inductive CfaRule
  | registerAndOffset (register : Nat) (offset : Int)
  | expr
deriving DecidableEq

/-- The shape of `gimli::RegisterRule`, the external decoder's
per-register recovery rule; `UnwindTableRow::parse` distinguishes
`Undefined` and `Offset` and lumps every other constructor together. -/
inductive RegisterRule
  | undefined
  | sameValue
  | offset (n : Int)
  | valOffset (n : Int)
  | reg (r : Nat)
  | expr
  | valExpr
  | architectural
deriving DecidableEq

/-- The per-register arm of `UnwindTableRow::parse`
(src/src/ast.rs lines 111-125, identical for rbp, rbx and ra):
`Undefined ↦ Undefined`, `Offset(n) ↦ CfaOffset(n)`, anything else
`↦ Unimplemented`. -/
def parseRegisterRule : RegisterRule → Register
  | .undefined => .Undefined
  | .offset n => .CfaOffset n
  | _ => .Unimplemented

/-- `UnwindTableRow::parse` (src/src/ast.rs lines 95-128), over the
decoded shapes of one native row: the CFA arm maps a register+offset
rule through `machineRegisterOfDwarf` (whose `todo!()` panic propagates
as `none`) and maps any expression rule to `PltExpr`; the rbp/rbx/ra
arms go through `parseRegisterRule`. -/
def parse (start_address : Nat) (cfa : CfaRule)
    (rbpRule rbxRule raRule : RegisterRule) : Option UnwindTableRow := do
  let cfaReg ←
    match cfa with
    | .registerAndOffset register offset =>
        (machineRegisterOfDwarf register).map (Register.Reg · offset)
    | .expr => pure Register.PltExpr
  pure ⟨start_address, cfaReg, parseRegisterRule rbpRule,
    parseRegisterRule rbxRule, parseRegisterRule raRule⟩

end Ast

/-! ## Runtime semantics of the emitted expressions -/

/-- The runtime environment an emitted expression reads: the input
record `ctx` (one value per `ctx.{reg}` field the renderer can name),
the just-computed `out_ctx->rsp`, and the memory-read callback `deref`.
Pointer values are machine words. -/
structure CtxEnv where
  regVal : MachineRegister → Nat
  outRsp : Nat
  deref : Nat → Nat

/-- `uintptr_t` addition of a signed offset, wrapping modulo `2 ^ 64`. -/
def wordAdd (base : Nat) (off : Int) : Nat :=
  (((base : Int) + off) % (2 ^ 64 : Int)).toNat

/-- Value of an emitted C expression: `deref(out_ctx->rsp + n)` reads
memory at the just-computed stack pointer plus `n`; `ctx.r + n` adds `n`
to the input record's field; the PLT template evaluates
`(((ctx.rip & 15) >= 11) ? 8 : 0) + ctx.rsp`. -/
def CExpr.eval (env : CtxEnv) : CExpr → Nat
  | .derefRspOffset off => env.deref (wordAdd env.outRsp off)
  | .ctxReg reg off => wordAdd (env.regVal reg) off
  | .plt =>
      ((if 11 ≤ env.regVal MachineRegister.Rip &&& 15 then 8 else 0) +
        env.regVal MachineRegister.Rsp) % 2 ^ 64

/-- The spec's per-variant rendering (§4.3, "Expression rendering"),
stated as the value the rendered text denotes; the second definition for
the refinement claim C8, following the spec's words:
`FromRegisterPlusOffset(base, n)` is the input record's `base` register
plus `n`; `FromMemoryAtCfaOffset(n)` is a dereference of the
just-computed output stack pointer plus `n` (not the caller's input
stack pointer); `PltTrampolineFormula` is
`((input.instruction_pointer & 15) >= 11 ? 8 : 0) + input.stack_pointer`.
`Undefined`/`Unsupported` are never rendered; the value 0 below is a
placeholder outside the claim's hypothesis. -/
def specRenderValue (env : CtxEnv) : Register → Nat
  | .Reg base n => wordAdd (env.regVal base) n
  | .CfaOffset n => env.deref (wordAdd env.outRsp n)
  | .PltExpr =>
      ((if 11 ≤ env.regVal MachineRegister.Rip &&& 15 then 8 else 0) +
        env.regVal MachineRegister.Rsp) % 2 ^ 64
  | .Undefined => 0
  | .Unimplemented => 0

example : gen_rows [] = none := by simp [gen_rows]

example :
    gen_rows [⟨0, 16, .Reg .Rsp 16, .Undefined, .Undefined, .CfaOffset (-8)⟩,
              ⟨16, 32, .Reg .Rsp 8, .Undefined, .Undefined, .CfaOffset (-8)⟩] =
      some (.node 0 16 (.leaf ⟨0, 16, .Reg .Rsp 16, .Undefined, .Undefined, .CfaOffset (-8)⟩)
        (.leaf ⟨16, 32, .Reg .Rsp 8, .Undefined, .Undefined, .CfaOffset (-8)⟩)) := by
  simp [gen_rows]

/-! ## Helper lemmas about pairwise-separated lists and `gen_rows` -/

/-- In a pairwise-related list, every member is either the head or
related to it from the left. -/
lemma rel_head_of_pairwise {α : Type} {R : α → α → Prop} {l : List α} {x r : α}
    (hp : l.Pairwise R) (hh : l.head? = some x) (hr : r ∈ l) :
    r = x ∨ R x r := by
  cases l with
  | nil => simp at hh
  | cons a t =>
    simp only [List.head?_cons, Option.some.injEq] at hh
    subst hh
    rcases List.mem_cons.mp hr with h | h
    · exact Or.inl h
    · exact Or.inr ((List.pairwise_cons.mp hp).1 r h)

/-- In a pairwise-related list, every member is either the last element
or related to it from the right. -/
lemma rel_getLast_of_pairwise {α : Type} {R : α → α → Prop} :
    ∀ {l : List α} {z r : α}, l.Pairwise R → l.getLast? = some z → r ∈ l →
      r = z ∨ R r z := by
  intro l
  induction l with
  | nil => intro z r _ hl; simp at hl
  | cons a t ih =>
    intro z r hp hl hr
    cases t with
    | nil =>
      simp only [List.getLast?_singleton, Option.some.injEq] at hl
      simp only [List.mem_singleton] at hr
      exact Or.inl (hr.trans hl)
    | cons b t' =>
      rw [List.getLast?_cons_cons] at hl
      rcases List.mem_cons.mp hr with h | h
      · subst h
        have hz : z ∈ b :: t' := List.mem_of_mem_getLast? (by simp [hl])
        exact Or.inr ((List.pairwise_cons.mp hp).1 z hz)
      · exact ih (List.pairwise_cons.mp hp).2 hl h

/-- `gen_rows` on a singleton emits the row's leaf. -/
lemma gen_rows_singleton (r : UnwindTableRow) :
    gen_rows [r] = some (.leaf r) := by
  simp [gen_rows]

/-- Main dispatch lemma, by strong induction on a length bound: under
the spec's table invariants, the tree emitted by `gen_rows` resolves any
address inside a row's range to that row's leaf. -/
lemma gen_rows_eval_aux :
    ∀ (n : Nat) (rows : List UnwindTableRow), rows.length ≤ n →
    ∀ (t : DTree) (r : UnwindTableRow) (pc : Nat),
      (∀ x ∈ rows, x.start_address < x.end_address) →
      rows.Pairwise (fun x y => x.end_address ≤ y.start_address) →
      gen_rows rows = some t →
      r ∈ rows → r.start_address ≤ pc → pc < r.end_address →
      t.eval pc = r := by
  intro n
  induction n with
  | zero =>
    intro rows hlen t r pc _ _ _ hr _ _
    rw [List.length_eq_zero.mp (Nat.le_zero.mp hlen)] at hr
    simp at hr
  | succ n ih =>
    intro rows hlen t r pc hpos hsep ht hr hlo hhi
    unfold gen_rows at ht
    by_cases h1 : rows.length > 1
    · rw [dif_pos h1] at ht
      set a := rows.take (rows.length / 2) with hadef
      set b := rows.drop (rows.length / 2) with hbdef
      have hab : a ++ b = rows := List.take_append_drop _ rows
      have hsep' : (a ++ b).Pairwise (fun x y => x.end_address ≤ y.start_address) := by
        rw [hab]; exact hsep
      obtain ⟨hsepa, hsepb, hcross⟩ := List.pairwise_append.mp hsep'
      have hposa : ∀ x ∈ a, x.start_address < x.end_address :=
        fun x hx => hpos x (List.take_subset _ _ hx)
      have hposb : ∀ x ∈ b, x.start_address < x.end_address :=
        fun x hx => hpos x (List.drop_subset _ _ hx)
      have hla : a.length ≤ n := by
        simp only [hadef, List.length_take]; omega
      have hlb : b.length ≤ n := by
        simp only [hbdef, List.length_drop]; omega
      match hhd : a.head?, hlst : a.getLast?, hta : gen_rows a, htb : gen_rows b with
      | some hd, some lst, some ta, some tb =>
        rw [hhd, hlst, hta, htb] at ht
        have hteq : t = .node hd.start_address lst.end_address ta tb := by
          cases ht; rfl
        subst hteq
        have hhdmem : hd ∈ a := List.mem_of_mem_head? (by simp [hhd])
        have hlstmem : lst ∈ a := List.mem_of_mem_getLast? (by simp [hlst])
        have hmem : r ∈ a ∨ r ∈ b := by
          rw [← hab] at hr; exact List.mem_append.mp hr
        rcases hmem with hra | hrb
        · -- the guard is true: hd.start ≤ pc < lst.end
          have hg1 : hd.start_address ≤ pc := by
            rcases rel_head_of_pairwise hsepa hhd hra with h | h
            · exact h ▸ hlo
            · have := hpos hd (List.take_subset _ _ hhdmem)
              omega
          have hg2 : pc < lst.end_address := by
            rcases rel_getLast_of_pairwise hsepa hlst hra with h | h
            · exact h ▸ hhi
            · have := hpos lst (List.take_subset _ _ hlstmem)
              omega
          simp only [DTree.eval, if_pos (And.intro hg1 hg2)]
          exact ih a hla ta r pc hposa hsepa hta hra hlo hhi
        · -- the guard is false: lst.end ≤ r.start ≤ pc
          have hg : ¬ (hd.start_address ≤ pc ∧ pc < lst.end_address) := by
            have := hcross lst hlstmem r hrb
            omega
          simp only [DTree.eval, if_neg hg]
          exact ih b hlb tb r pc hposb hsepb htb hrb hlo hhi
      | none, _, _, _ => rw [hhd] at ht; simp at ht
      | some _, none, _, _ => rw [hhd, hlst] at ht; simp at ht
      | some _, some _, none, _ => rw [hhd, hlst, hta] at ht; simp at ht
      | some _, some _, some _, none => rw [hhd, hlst, hta, htb] at ht; simp at ht
    · rw [dif_neg h1] at ht
      cases rows with
      | nil => simp at hr
      | cons r0 tl =>
        cases tl with
        | cons r1 tl' =>
          exfalso
          apply h1
          simp only [List.length_cons]
          omega
        | nil =>
          have hteq : some (DTree.leaf r0) = some t := ht
          cases hteq
          have : r = r0 := by simpa using hr
          subst this
          rfl

/-- Totality and depth of `gen_rows`, by strong induction on a length
bound: on a non-empty row list the recursion terminates with a tree of
depth `⌈log₂ (row count)⌉`. -/
lemma gen_rows_total_aux :
    ∀ (n : Nat) (rows : List UnwindTableRow), rows.length ≤ n → rows ≠ [] →
      ∃ t, gen_rows rows = some t ∧ t.depth = Nat.clog 2 rows.length := by
  intro n
  induction n with
  | zero =>
    intro rows hlen hne
    exact absurd (List.length_eq_zero.mp (Nat.le_zero.mp hlen)) hne
  | succ n ih =>
    intro rows hlen hne
    by_cases h1 : rows.length > 1
    · have hane : rows.take (rows.length / 2) ≠ [] := by
        rw [← List.length_pos]
        simp only [List.length_take]; omega
      have hbne : rows.drop (rows.length / 2) ≠ [] := by
        rw [← List.length_pos]
        simp only [List.length_drop]; omega
      obtain ⟨ta, hta, hda⟩ := ih (rows.take (rows.length / 2))
        (by simp only [List.length_take]; omega) hane
      obtain ⟨tb, htb, hdb⟩ := ih (rows.drop (rows.length / 2))
        (by simp only [List.length_drop]; omega) hbne
      obtain ⟨hd, hhd⟩ :=
        Option.isSome_iff_exists.mp ((List.head?_isSome).mpr hane)
      obtain ⟨lst, hlst⟩ :=
        Option.isSome_iff_exists.mp ((List.getLast?_isSome).mpr hane)
      refine ⟨.node hd.start_address lst.end_address ta tb, ?_, ?_⟩
      · unfold gen_rows
        rw [dif_pos h1, hhd, hlst, hta, htb]
      · have hlena : (rows.take (rows.length / 2)).length = rows.length / 2 := by
          simp only [List.length_take]; omega
        have hlenb : (rows.drop (rows.length / 2)).length =
            rows.length - rows.length / 2 := by
          simp only [List.length_drop]
        rw [hlena] at hda
        rw [hlenb] at hdb
        have hmono : Nat.clog 2 (rows.length / 2) ≤
            Nat.clog 2 (rows.length - rows.length / 2) :=
          Nat.clog_mono_right 2 (by omega)
        have hceil : rows.length - rows.length / 2 = (rows.length + 2 - 1) / 2 := by
          omega
        have hstep : Nat.clog 2 rows.length =
            Nat.clog 2 ((rows.length + 2 - 1) / 2) + 1 :=
          Nat.clog_of_two_le (by norm_num) (by omega)
        simp only [DTree.depth, hda, hdb]
        rw [hstep, ← hceil]
        omega
    · cases rows with
      | nil => exact absurd rfl hne
      | cons r0 tl =>
        cases tl with
        | cons r1 tl' =>
          exfalso
          apply h1
          simp only [List.length_cons]
          omega
        | nil =>
          exact ⟨.leaf r0, gen_rows_singleton r0, by
            simp [DTree.depth, Nat.clog_one_right]⟩

/-! ## The claims -/

/-- Bit 7 of the `u8` encoding of `UnwindFlags` is exactly the `error`
component. -/
lemma toU8_testBit7 (f : UnwindFlags) : f.toU8.testBit 7 = f.error := by
  rcases f with ⟨a, b, c, d, er⟩
  cases a <;> cases b <;> cases c <;> cases d <;> cases er <;> decide

/-- Closed form of the leaf generator: it panics exactly on an
`Undefined` CFA rule, and otherwise emits the three optional assignment
statements followed by the flags write and `return;`, with the flag bits
rip = ra-defined, rsp = cfa-implemented, rbp = rbp-defined, rbx = 0,
error = cfa-or-ra-unimplemented. -/
lemma gen_eq_formula (row : UnwindTableRow) :
    row.gen =
      if row.cfa = Register.Undefined then none
      else
        some ((if row.cfa.is_implemented then
                [Stmt.assignRsp (row.cfa.gen.getD .plt)] else []) ++
              (if row.rbp.is_defined then
                [Stmt.assignRbp (row.rbp.gen.getD .plt)] else []) ++
              (if row.ra.is_defined then
                [Stmt.assignRip (row.ra.gen.getD .plt)] else []) ++
              [Stmt.setFlags (UnwindFlags.toU8 ⟨row.ra.is_defined,
                  row.cfa.is_implemented, row.rbp.is_defined, false,
                  !row.ra.is_implemented || !row.cfa.is_implemented⟩), Stmt.ret],
            UnwindFlags.toU8 ⟨row.ra.is_defined, row.cfa.is_implemented,
              row.rbp.is_defined, false,
              !row.ra.is_implemented || !row.cfa.is_implemented⟩) := by
  rcases row with ⟨s, e, cfa, rbp, rbx, ra⟩
  cases cfa <;> cases rbp <;> cases ra <;>
    simp [UnwindTableRow.gen, Register.is_implemented, Register.is_defined,
      Register.gen]

/-- C1: for every table whose rows are sorted ascending by start address
with pairwise non-overlapping (non-empty) ranges, and for every row `r`
in that table, evaluating the dispatch tree produced by `gen_rows` on
any query address in `[r.start_address, r.end_address)` reaches exactly
`r`'s leaf. -/
theorem claim_C1_dispatch_resolves_to_row
    (rows : List UnwindTableRow) (t : DTree) (r : UnwindTableRow) (pc : Nat)
    (_hsorted : rows.Pairwise fun x y => x.start_address ≤ y.start_address)
    (hsep : rows.Pairwise fun x y => x.end_address ≤ y.start_address)
    (hpos : ∀ x ∈ rows, x.start_address < x.end_address)
    (ht : gen_rows rows = some t)
    (hr : r ∈ rows) (hlo : r.start_address ≤ pc) (hhi : pc < r.end_address) :
    t.eval pc = r :=
  gen_rows_eval_aux rows.length rows le_rfl t r pc hpos hsep ht hr hlo hhi

/-- Witness for C1 at a concrete two-row table and the in-range query
address 20. -/
theorem claim_C1_witness :
    DTree.eval 20 (.node 0 16
        (.leaf ⟨0, 16, .Reg .Rsp 16, .Undefined, .Undefined, .CfaOffset (-8)⟩)
        (.leaf ⟨16, 32, .Reg .Rsp 8, .Undefined, .Undefined, .CfaOffset (-8)⟩)) =
      ⟨16, 32, .Reg .Rsp 8, .Undefined, .Undefined, .CfaOffset (-8)⟩ :=
  claim_C1_dispatch_resolves_to_row
    [⟨0, 16, .Reg .Rsp 16, .Undefined, .Undefined, .CfaOffset (-8)⟩,
     ⟨16, 32, .Reg .Rsp 8, .Undefined, .Undefined, .CfaOffset (-8)⟩]
    _ _ 20 (by decide) (by decide) (by decide) (by simp [gen_rows])
    (by decide) (by decide) (by decide)

/-- C2: for every row whose leaf is emitted, the error bit (bit 7) of
the emitted flags byte is set iff the row's CFA rule is unsupported
(`Unimplemented`) or its return-address rule is `Unimplemented`; in
particular an `Undefined` return-address rule alone never sets it. -/
theorem claim_C2_error_bit_iff
    (row : UnwindTableRow) (stmts : List Stmt) (flags : Nat)
    (h : row.gen = some (stmts, flags)) :
    flags.testBit 7 = true ↔
      (row.cfa = Register.Unimplemented ∨ row.ra = Register.Unimplemented) := by
  rw [gen_eq_formula] at h
  by_cases hcfa : row.cfa = Register.Undefined
  · rw [if_pos hcfa] at h
    exact absurd h (by simp)
  · rw [if_neg hcfa] at h
    simp only [Option.some.injEq, Prod.mk.injEq] at h
    obtain ⟨-, hfl⟩ := h
    rw [← hfl, toU8_testBit7]
    cases hc : row.cfa <;> cases hr : row.ra <;>
      simp_all [Register.is_implemented]

/-- Witness for C2 at a row with supported CFA and `Unimplemented`
return-address rule: the emitted flags byte is 130 = rsp-bit + error
bit. -/
theorem claim_C2_witness :
    (UnwindTableRow.gen ⟨0, 16, .Reg .Rsp 16, .Undefined, .Undefined, .Unimplemented⟩ =
      some ([Stmt.assignRsp (.ctxReg .Rsp 16), Stmt.setFlags 130, Stmt.ret], 130)) ∧
    ((130 : Nat).testBit 7 = true ↔
      ((Register.Reg .Rsp 16) = Register.Unimplemented ∨
        Register.Unimplemented = Register.Unimplemented)) :=
  ⟨by decide, claim_C2_error_bit_iff
    ⟨0, 16, .Reg .Rsp 16, .Undefined, .Undefined, .Unimplemented⟩
    [Stmt.assignRsp (.ctxReg .Rsp 16), Stmt.setFlags 130, Stmt.ret] 130 (by decide)⟩

/-- C3 records a code bug.  The claim says a query address outside all
row ranges reaches the fallback path, which writes only the error bit
(0b1000_0000).  In the code: (a) the dispatch tree emitted by `gen_rows`
resolves every query address to some leaf — here the address 16 lies
outside the single row's range [0, 16) yet reaches that row's leaf, so
the `POST` fallback is dead code for any non-empty table; and (b) the
`POST` fallback writes the literal flags byte 7 (the bit *index* of
`UNWF_ERROR`, i.e. rip|rsp|rbp bits), whose bit 7 is clear, while the
`UnwindFlags` encoding of an error-only byte is 128 = 0b1000_0000. -/
theorem claim_C3_fallback_bug :
    (gen_rows [⟨0, 16, .Reg .Rsp 16, .Undefined, .Undefined, .CfaOffset (-8)⟩] =
        some (.leaf ⟨0, 16, .Reg .Rsp 16, .Undefined, .Undefined, .CfaOffset (-8)⟩) ∧
      DTree.eval 16 (.leaf ⟨0, 16, .Reg .Rsp 16, .Undefined, .Undefined, .CfaOffset (-8)⟩) =
        ⟨0, 16, .Reg .Rsp 16, .Undefined, .Undefined, .CfaOffset (-8)⟩) ∧
    postStmts = [Stmt.setFlags 7, Stmt.ret] ∧
    (7 : Nat).testBit 7 = false ∧
    UnwindFlags.toU8 { error := true } = 128 := by
  refine ⟨⟨?_, rfl⟩, rfl, by decide, by decide⟩
  simp [gen_rows]

/-- C4 fails on the code: a row whose CFA rule is `Unimplemented` but
whose frame-pointer rule is defined still emits the frame-pointer
expression, and the emitted flags byte is 132 = 0b1000_0100, not the
error-only 0b1000_0000. -/
theorem claim_C4_counterexample :
    UnwindTableRow.gen ⟨0, 16, .Unimplemented, .CfaOffset 8, .Undefined, .Undefined⟩ =
      some ([Stmt.assignRbp (.derefRspOffset 8), Stmt.setFlags 132, Stmt.ret], 132) ∧
    (132 : Nat) ≠ 128 := by
  decide

/-- C4 amended: for every row whose CFA rule is `Unimplemented` and
whose frame-pointer and return-address rules are both not defined, the
leaf consists of the error-only flags write 128 = 0b1000_0000 followed
by `return;`, with no stack-pointer, frame-pointer or return-address
expression emitted. -/
theorem claim_C4_amended (row : UnwindTableRow)
    (hcfa : row.cfa = Register.Unimplemented)
    (hrbp : row.rbp.is_defined = false)
    (hra : row.ra.is_defined = false) :
    row.gen = some ([Stmt.setFlags 128, Stmt.ret], 128) := by
  rw [gen_eq_formula, if_neg (by rw [hcfa]; decide)]
  rw [hcfa] at *
  simp only [Register.is_implemented, hrbp, hra, Bool.false_eq_true, if_false,
    Bool.not_false, Bool.or_true, List.nil_append, Option.some.injEq,
    Prod.mk.injEq]
  exact ⟨rfl, rfl⟩

/-- Witness for C4's amended statement at a concrete row. -/
theorem claim_C4_witness :
    UnwindTableRow.gen ⟨0, 16, .Unimplemented, .Undefined, .Undefined, .Undefined⟩ =
      some ([Stmt.setFlags 128, Stmt.ret], 128) :=
  claim_C4_amended ⟨0, 16, .Unimplemented, .Undefined, .Undefined, .Undefined⟩
    (by decide) (by decide) (by decide)

/-- C5 (builder modelled from the spec): for every input order of
per-entry row streams, the built table's rows are sorted ascending by
`start_address`, and are a permutation of the concatenation of the
streams. -/
theorem claim_C5_table_sorted (entries : List (List UnwindTableRow)) :
    (buildTable entries).rows.Pairwise
      (fun a b => a.start_address ≤ b.start_address) ∧
    (buildTable entries).rows.Perm entries.flatten := by
  constructor
  · refine List.Pairwise.imp ?_
      (List.sorted_mergeSort ?_ ?_ entries.flatten)
    · intro a b hab
      simpa using hab
    · intro a b c hab hbc
      simp only [decide_eq_true_eq] at hab hbc ⊢
      omega
    · intro a b
      simp only [Bool.or_eq_true, decide_eq_true_eq]
      omega
  · exact List.mergeSort_perm _ _

/-- C6 fails on the code: for a row whose CFA rule is `Undefined`, the
leaf generator treats the CFA as implemented and invokes the renderer on
`Undefined`, hitting the `unreachable!()` panic — so rendering
`Undefined` *is* reachable through the leaf logic. -/
theorem claim_C6_counterexample :
    Register.is_implemented .Undefined = true ∧
    Register.gen .Undefined = none ∧
    UnwindTableRow.gen ⟨0, 16, .Undefined, .Undefined, .Undefined, .Undefined⟩ = none := by
  decide

/-- C6 amended: for every row whose CFA rule is not `Undefined`, the
renderer is only invoked on supported and defined values, so leaf
generation never panics. -/
theorem claim_C6_amended (row : UnwindTableRow)
    (hcfa : row.cfa ≠ Register.Undefined) :
    ∃ out, row.gen = some out := by
  rw [gen_eq_formula, if_neg hcfa]
  exact ⟨_, rfl⟩

/-- Witness for C6's amended statement at a concrete row. -/
theorem claim_C6_witness :
    ∃ out, UnwindTableRow.gen ⟨0, 16, .PltExpr, .CfaOffset 16, .Undefined, .CfaOffset (-8)⟩ =
      some out :=
  claim_C6_amended ⟨0, 16, .PltExpr, .CfaOffset 16, .Undefined, .CfaOffset (-8)⟩ (by decide)

/-- C7 fails on the code: a CFA register+offset rule whose base register
is outside the modeled machine-register set (here DWARF register 0,
rax) hits the `todo!()` panic in the gimli→`MachineRegister` conversion,
so extraction aborts instead of mapping the rule in-model. -/
theorem claim_C7_counterexample :
    Ast.machineRegisterOfDwarf 0 = none ∧
    Ast.parse 0 (.registerAndOffset 0 16) .undefined .undefined .undefined = none := by
  decide

/-- C7 amended: extraction maps every non-CFA recovery rule outside the
modeled subset to `Unimplemented` rather than failing, and it succeeds
on every row whose CFA rule is either an expression or a register+offset
rule whose base register is in the modeled machine-register set
(DWARF 3 = rbx, 6 = rbp, 7 = rsp, 16 = ra). -/
theorem claim_C7_amended (start : Nat) (cfa : Ast.CfaRule)
    (rbpRule rbxRule raRule : Ast.RegisterRule)
    (hcfa : ∀ reg off, cfa = .registerAndOffset reg off →
      (Ast.machineRegisterOfDwarf reg).isSome) :
    (∃ row, Ast.parse start cfa rbpRule rbxRule raRule = some row) ∧
    (∀ rr : Ast.RegisterRule, rr ≠ .undefined → (∀ n, rr ≠ .offset n) →
      Ast.parseRegisterRule rr = Register.Unimplemented) := by
  constructor
  · cases cfa with
    | registerAndOffset reg off =>
      obtain ⟨m, hm⟩ := Option.isSome_iff_exists.mp (hcfa reg off rfl)
      refine ⟨⟨start, Register.Reg m off, Ast.parseRegisterRule rbpRule,
        Ast.parseRegisterRule rbxRule, Ast.parseRegisterRule raRule⟩, ?_⟩
      simp [Ast.parse, hm]
    | expr =>
      refine ⟨⟨start, Register.PltExpr, Ast.parseRegisterRule rbpRule,
        Ast.parseRegisterRule rbxRule, Ast.parseRegisterRule raRule⟩, ?_⟩
      simp [Ast.parse]
  · intro rr h1 h2
    cases rr <;> simp_all [Ast.parseRegisterRule]

/-- Witness for C7's amended statement: a CFA rule based on rsp
(DWARF 7) and `expr`-shaped register rules parse successfully. -/
theorem claim_C7_witness :
    (∃ row, Ast.parse 0 (.registerAndOffset 7 16) .expr .expr .expr = some row) ∧
    (∀ rr : Ast.RegisterRule, rr ≠ .undefined → (∀ n, rr ≠ .offset n) →
      Ast.parseRegisterRule rr = Register.Unimplemented) :=
  claim_C7_amended 0 (.registerAndOffset 7 16) .expr .expr .expr
    (by intro reg off h; cases h; decide)

/-- C8: for every defined (hence supported) rule value, the emitted
expression evaluates, in every runtime environment, to the spec's
per-variant form: register+offset reads the input record's base
register plus the offset; CFA-offset dereferences the just-computed
output stack pointer plus the offset (not the caller's input stack
pointer); the PLT rule is the fixed closed-form
`((ctx.rip & 15) >= 11 ? 8 : 0) + ctx.rsp`. -/
theorem claim_C8_render_matches_spec (env : CtxEnv) (r : Register) (e : CExpr)
    (hdef : r.is_defined = true) (hgen : r.gen = some e) :
    e.eval env = specRenderValue env r := by
  cases r with
  | Undefined => simp [Register.is_defined] at hdef
  | Unimplemented => simp [Register.is_defined] at hdef
  | Reg reg off =>
    simp only [Register.gen, Option.some.injEq] at hgen
    subst hgen
    rfl
  | CfaOffset off =>
    simp only [Register.gen, Option.some.injEq] at hgen
    subst hgen
    rfl
  | PltExpr =>
    simp only [Register.gen, Option.some.injEq] at hgen
    subst hgen
    rfl

/-- Witness for C8 at the CFA-offset rule and an environment whose input
stack pointer (5) differs from the just-computed one (100): the rendered
expression reads memory at 100 + 8. -/
theorem claim_C8_witness :
    Register.is_defined (.CfaOffset 8) = true ∧
    CExpr.eval ⟨fun _ => 5, 100, fun a => a + 1⟩ (.derefRspOffset 8) =
      specRenderValue ⟨fun _ => 5, 100, fun a => a + 1⟩ (.CfaOffset 8) :=
  ⟨by decide, claim_C8_render_matches_spec ⟨fun _ => 5, 100, fun a => a + 1⟩
    (.CfaOffset 8) (.derefRspOffset 8) (by decide) (by decide)⟩

/-- C9: on every non-empty row sequence the recursive bisection
generator terminates with a dispatch tree whose nesting depth is exactly
`⌈log₂ (row count)⌉` (`Nat.clog 2`), independent of the rows' address
values. -/
theorem claim_C9_depth_is_clog (rows : List UnwindTableRow) (hne : rows ≠ []) :
    ∃ t, gen_rows rows = some t ∧ t.depth = Nat.clog 2 rows.length :=
  gen_rows_total_aux rows.length rows le_rfl hne

/-- Witness for C9 at a concrete three-row table (depth ⌈log₂ 3⌉ = 2). -/
theorem claim_C9_witness :
    ∃ t, gen_rows [⟨0, 16, .Undefined, .Undefined, .Undefined, .Undefined⟩,
        ⟨16, 32, .Undefined, .Undefined, .Undefined, .Undefined⟩,
        ⟨32, 48, .Undefined, .Undefined, .Undefined, .Undefined⟩] = some t ∧
      t.depth = Nat.clog 2 ([⟨0, 16, .Undefined, .Undefined, .Undefined, .Undefined⟩,
        ⟨16, 32, .Undefined, .Undefined, .Undefined, .Undefined⟩,
        ⟨32, 48, .Undefined, .Undefined, .Undefined, .Undefined⟩] :
          List UnwindTableRow).length :=
  claim_C9_depth_is_clog _ (by decide)

/-- C10: invoking the generator on a table with zero rows is not total —
`gen_rows` indexes element 0 of the empty slice and panics (modelled as
`none`) — while with at least one row it always produces a dispatch
tree. -/
theorem claim_C10_empty_not_total :
    UnwindTable.gen ⟨[]⟩ = none ∧
      ∀ rows : List UnwindTableRow, rows ≠ [] →
        ∃ t, UnwindTable.gen ⟨rows⟩ = some t := by
  constructor
  · simp [UnwindTable.gen, gen_rows]
  · intro rows hne
    obtain ⟨t, ht, _⟩ := gen_rows_total_aux rows.length rows le_rfl hne
    exact ⟨t, ht⟩

/-- Witness for C10: the empty table panics, a one-row table
generates. -/
theorem claim_C10_witness :
    UnwindTable.gen ⟨[]⟩ = none ∧
      ∃ t, UnwindTable.gen ⟨[⟨0, 16, .Undefined, .Undefined, .Undefined, .Undefined⟩]⟩ =
        some t :=
  ⟨claim_C10_empty_not_total.1,
    claim_C10_empty_not_total.2
      [⟨0, 16, .Undefined, .Undefined, .Undefined, .Undefined⟩] (by decide)⟩

end EhframeBpf
